import Mathlib

/-!
Shallow embedding of the polygon-slicing program (`src/main.rs`).

The Rust program works over `f64`; we embed it over `ℚ` (exact rational
arithmetic as the idealization of floating point), keeping every constant,
guard and loop of the source intact.  The boolean flags
`inserted_first_intersection` / `inserted_second_intersection` of
`split_polygon` are modelled as natural-number insertion counters
`n1` / `n2`, where the source's `!inserted_…` test is the test `n1 = 0`:
the counter records how many times each registered intersection point has
been inserted, which is the quantity several specification sentences are
about.
-/

namespace PolySlice

/-- `EPSILON` from `main.rs` line 1: `1e-10`. -/
def EPSILON : ℚ := 1 / 10000000000

/-- `f64::abs`, written so that it evaluates by kernel reduction;
`rabs_eq_abs` identifies it with Mathlib's `|·|`. -/
def rabs (q : ℚ) : ℚ := if q < 0 then -q else q

theorem rabs_eq_abs (q : ℚ) : rabs q = |q| := by
  unfold rabs
  rcases lt_or_le q 0 with h | h
  · rw [if_pos h, abs_of_neg h]
  · rw [if_neg (not_lt.mpr h), abs_of_nonneg h]

/-- Floor of a rational, written so that it evaluates by kernel
reduction; `rfloor_eq_floor` identifies it with Mathlib's `⌊·⌋`. -/
def rfloor (q : ℚ) : ℤ := q.num / (q.den : ℤ)

theorem rfloor_eq_floor (q : ℚ) : rfloor q = ⌊q⌋ := by
  rw [rfloor, ← Rat.num_div_den q, Rat.floor_intCast_div_natCast,
    Rat.num_div_den]

/-- `struct Point { x: f64, y: f64 }`. -/
structure Point where
  x : ℚ
  y : ℚ
deriving DecidableEq, Repr, Inhabited

/-- `struct Line { p1: Point, p2: Point }`. -/
structure Line where
  p1 : Point
  p2 : Point
deriving DecidableEq, Repr, Inhabited

/-- Rust `polygon_points[i]` (all indexing in the program is in bounds,
so the default value is never produced on the source's executions). -/
def getP (l : List Point) (i : Nat) : Point :=
  l.getD i ⟨0, 0⟩

/-- `line_segment_intersection` (`main.rs` lines 16–49): parametric
line–line solve, `None` when `|denom| < EPSILON`, and an acceptance test
`t, u ∈ [-EPSILON, 1 + EPSILON]`; the reported point is taken from
segment 1's parametric position. -/
def line_segment_intersection (line1 line2 : Line) : Option Point :=
  let x1 := line1.p1.x; let y1 := line1.p1.y
  let x2 := line1.p2.x; let y2 := line1.p2.y
  let x3 := line2.p1.x; let y3 := line2.p1.y
  let x4 := line2.p2.x; let y4 := line2.p2.y
  let dx1 := x2 - x1
  let dy1 := y2 - y1
  let dx2 := x4 - x3
  let dy2 := y4 - y3
  let denom := dx1 * dy2 - dy1 * dx2
  if rabs denom < EPSILON then
    none
  else
    let dx3 := x3 - x1
    let dy3 := y3 - y1
    let t := (dx3 * dy2 - dy3 * dx2) / denom
    let u := (dx3 * dy1 - dy3 * dx1) / denom
    if -EPSILON ≤ t ∧ t ≤ 1 + EPSILON ∧ -EPSILON ≤ u ∧ u ≤ 1 + EPSILON then
      some ⟨x1 + t * dx1, y1 + t * dy1⟩
    else
      none

/-- The comparator of `find_intersections`' `sort_by` (`main.rs` lines
71–78): compare by `x`, ties broken by `y` (on `ℚ`, `partial_cmp` never
returns `None`, so the `unwrap_or(Equal)` branches are exact).  The
relation is total and antisymmetric, so every sort produces the same
output list; we run `List.insertionSort` with it below. -/
def ptLe (a b : Point) : Prop :=
  a.x < b.x ∨ (a.x = b.x ∧ a.y ≤ b.y)

instance : DecidableRel ptLe := fun a b =>
  inferInstanceAs (Decidable (a.x < b.x ∨ (a.x = b.x ∧ a.y ≤ b.y)))

instance : IsTotal Point ptLe where
  total a b := by
    rcases lt_trichotomy a.x b.x with h | h | h
    · exact Or.inl (Or.inl h)
    · rcases le_total a.y b.y with hy | hy
      · exact Or.inl (Or.inr ⟨h, hy⟩)
      · exact Or.inr (Or.inr ⟨h.symm, hy⟩)
    · exact Or.inr (Or.inl h)

instance : IsTrans Point ptLe where
  trans a b c hab hbc := by
    rcases hab with h1 | ⟨e1, y1⟩
    · rcases hbc with h2 | ⟨e2, _⟩
      · exact Or.inl (h1.trans h2)
      · exact Or.inl (e2 ▸ h1)
    · rcases hbc with h2 | ⟨e2, y2⟩
      · exact Or.inl (e1 ▸ h2)
      · exact Or.inr ⟨e1.trans e2, y1.trans y2⟩

/-- The scan of `Vec::dedup_by` after the first element: `last` is the
last retained point, and a later point is dropped exactly when
`pred point last` holds. -/
def dedupByGo (pred : Point → Point → Bool) (last : Point) :
    List Point → List Point
  | [] => []
  | y :: ys =>
    if pred y last then dedupByGo pred last ys
    else y :: dedupByGo pred y ys

/-- Rust `Vec::dedup_by(pred)`: walks the vector, removing each element
for which `pred element last_retained` holds, keeping the first element
of every run. -/
def dedupBy (pred : Point → Point → Bool) : List Point → List Point
  | [] => []
  | x :: xs => x :: dedupByGo pred x xs

/-- The near-duplicate predicate of `dedup_by` (`main.rs` line 79):
both coordinate differences below `EPSILON`.  Arguments in the Rust
closure's order: `a` is the candidate, `b` the last retained element. -/
def dupPred (a b : Point) : Bool :=
  rabs (a.x - b.x) < EPSILON && rabs (a.y - b.y) < EPSILON

/-- `find_intersections` (`main.rs` lines 53–82): intersect the cutting
line with every polygon edge (consecutive vertices, wrapping around),
sort the hits by `(x, y)` and remove adjacent near-duplicates. -/
def find_intersections (polygon_points : List Point) (line : Line) :
    List Point :=
  let n := polygon_points.length
  let raw := (List.range n).filterMap (fun i =>
    line_segment_intersection line
      ⟨getP polygon_points i, getP polygon_points ((i + 1) % n)⟩)
  dedupBy dupPred (List.insertionSort ptLe raw)

/-- `point_line_side` (`main.rs` lines 86–91): signed cross product of
the point against the line's direction vector. -/
def point_line_side (line : Line) (p : Point) : ℚ :=
  let dx := line.p2.x - line.p1.x
  let dy := line.p2.y - line.p1.y
  (p.x - line.p1.x) * dy - (p.y - line.p1.y) * dx

/-- The loop state of `split_polygon`: the two polygons under
construction and the two insertion counters (see the module comment). -/
structure SplitState where
  pa : List Point
  pb : List Point
  n1 : Nat
  n2 : Nat
deriving Repr

/-- One iteration of `split_polygon`'s loop (`main.rs` lines 109–148)
at index `i`: side-classify the current vertex into `pa` / `pb`, then
try to match the intersection of the edge `current → next` against the
two registered intersection points by exact coordinate equality. -/
def split_step (polygon_points : List Point) (line : Line)
    (intersections : List Point) (s : SplitState) (i : Nat) : SplitState :=
  let n := polygon_points.length
  let current := getP polygon_points i
  let next := getP polygon_points ((i + 1) % n)
  let side := point_line_side line current
  let pa := if side ≥ -EPSILON then s.pa ++ [current] else s.pa
  let pb := if side ≤ EPSILON then s.pb ++ [current] else s.pb
  match line_segment_intersection line ⟨current, next⟩ with
  | none => ⟨pa, pb, s.n1, s.n2⟩
  | some ip =>
    if intersections ≠ [] then
      if (getP intersections 0).x = ip.x ∧ (getP intersections 0).y = ip.y
          ∧ s.n1 = 0 then
        ⟨pa ++ [ip], pb ++ [ip], s.n1 + 1, s.n2⟩
      else if intersections.length > 1
          ∧ (getP intersections 1).x = ip.x ∧ (getP intersections 1).y = ip.y
          ∧ s.n2 = 0 then
        ⟨pa ++ [ip], pb ++ [ip], s.n1, s.n2 + 1⟩
      else ⟨pa, pb, s.n1, s.n2⟩
    else ⟨pa, pb, s.n1, s.n2⟩

/-- The full loop of `split_polygon`, run over every vertex index. -/
def split_scan (polygon_points : List Point) (line : Line) : SplitState :=
  (List.range polygon_points.length).foldl
    (split_step polygon_points line (find_intersections polygon_points line))
    ⟨[], [], 0, 0⟩

/-- `split_polygon` (`main.rs` lines 95–151): `None` unless the edge
scan found exactly two distinct intersections, otherwise the two
side polygons built by the loop. -/
def split_polygon (polygon_points : List Point) (line : Line) :
    Option (List (List Point)) :=
  let intersections := find_intersections polygon_points line
  if intersections.length ≠ 2 then
    none
  else
    let s := split_scan polygon_points line
    some [s.pa, s.pb]

/-- Rust `f64::round`: round half away from zero. -/
def roundRust (q : ℚ) : ℤ :=
  if 0 ≤ q then rfloor (q + 1 / 2) else -rfloor (-q + 1 / 2)

/-- `polygon_area` (`main.rs` lines 154–171): zero below three vertices,
otherwise the absolute shoelace half-sum rounded at the seventh decimal. -/
def polygon_area (points : List Point) : ℚ :=
  let point_count := points.length
  if point_count < 3 then 0
  else
    let area := (List.range point_count).foldl
      (fun acc i =>
        acc + (getP points i).x * (getP points ((i + 1) % point_count)).y
            - (getP points ((i + 1) % point_count)).x * (getP points i).y)
      0
    (roundRust (rabs (area / 2) * 10000000) : ℚ) / 10000000

/-- The body of the driver's per-line loop (`main.rs` lines 180–191):
each polygon of the working set is replaced by its two fragments when
the split succeeds, and carried through unchanged when it fails. -/
def apply_line (polys : List (List Point)) (line : Line) :
    List (List Point) :=
  polys.flatMap (fun poly =>
    match split_polygon poly line with
    | some split_result => split_result
    | none => [poly])

/-- `get_largest_polygon_area` (`main.rs` lines 175–207): fold all the
cutting lines over the working set, then take the largest area found
(starting from `0.0`). -/
def get_largest_polygon_area (polygon_points : List Point)
    (lines : List Line) : ℚ :=
  let polygons := lines.foldl apply_line [polygon_points]
  polygons.foldl
    (fun largest_area poly =>
      if polygon_area poly > largest_area then polygon_area poly
      else largest_area)
    0

/-! ### Concrete geometric inputs used by witnesses and counterexamples -/

/-- The unit square of the spec's concrete scenarios. -/
def unitSquare : List Point := [⟨0, 0⟩, ⟨1, 0⟩, ⟨1, 1⟩, ⟨0, 1⟩]

/-- Diagonal cut `(0,0)-(1,1)`. -/
def cutDiag : Line := ⟨⟨0, 0⟩, ⟨1, 1⟩⟩

/-- Vertical cut `(0.5,0)-(0.5,1)`. -/
def cutVert : Line := ⟨⟨1/2, 0⟩, ⟨1/2, 1⟩⟩

/-- Horizontal cut `(0,0.5)-(1,0.5)`. -/
def cutHoriz : Line := ⟨⟨0, 1/2⟩, ⟨1, 1/2⟩⟩

/-- Off-center diagonal cut `(0.1,0)-(1,1)`. -/
def cutOffDiag : Line := ⟨⟨1/10, 0⟩, ⟨1, 1⟩⟩

/-- High-precision vertical cut at `x = 0.123456789`. -/
def cutHighPrec : Line := ⟨⟨123456789/1000000000, 0⟩, ⟨123456789/1000000000, 1⟩⟩

/-- A segment entirely outside the unit square: `(2,2)-(3,3)`. -/
def farSegment : Line := ⟨⟨2, 2⟩, ⟨3, 3⟩⟩

/-- A simple (non-self-intersecting) U-shaped polygon of area `7`. -/
def uShape : List Point :=
  [⟨0, 0⟩, ⟨3, 0⟩, ⟨3, 3⟩, ⟨2, 3⟩, ⟨2, 1⟩, ⟨1, 1⟩, ⟨1, 3⟩, ⟨0, 3⟩]

/-- A horizontal segment crossing only the left arm of `uShape`: it meets
the boundary at exactly the two points `(0,2)` and `(1,2)`, so
`split_polygon` succeeds, but the infinite side-classification line also
passes through the right arm. -/
def uShapeCut : Line := ⟨⟨-1, 2⟩, ⟨3/2, 2⟩⟩

/-- First fragment produced by `split_polygon uShape uShapeCut`. -/
def uShapeFragA : List Point :=
  [⟨0, 0⟩, ⟨3, 0⟩, ⟨2, 1⟩, ⟨1, 1⟩, ⟨1, 2⟩, ⟨0, 2⟩]

/-- Second fragment produced by `split_polygon uShape uShapeCut`. -/
def uShapeFragB : List Point :=
  [⟨3, 3⟩, ⟨2, 3⟩, ⟨1, 2⟩, ⟨1, 3⟩, ⟨0, 3⟩, ⟨0, 2⟩]

/-- First fragment of `split_polygon unitSquare cutDiag` (both diagonal
endpoints lie on the cutting line, so they enter both fragments, once as
a classified vertex and once as an inserted intersection point). -/
def diagFragA : List Point := [⟨0, 0⟩, ⟨0, 0⟩, ⟨1, 0⟩, ⟨1, 1⟩, ⟨1, 1⟩]

/-- Second fragment of `split_polygon unitSquare cutDiag`. -/
def diagFragB : List Point := [⟨0, 0⟩, ⟨0, 0⟩, ⟨1, 1⟩, ⟨1, 1⟩, ⟨0, 1⟩]

/-! ### Spec-side formulas, used to state the claims -/

/-- The cross-product denominator of the parametric line–line system, as
the specification describes it (§4.1). -/
def lsiDenom (line1 line2 : Line) : ℚ :=
  (line1.p2.x - line1.p1.x) * (line2.p2.y - line2.p1.y) -
    (line1.p2.y - line1.p1.y) * (line2.p2.x - line2.p1.x)

/-- Parameter `t` (position along segment 1) of the parametric system. -/
def lsiT (line1 line2 : Line) : ℚ :=
  ((line2.p1.x - line1.p1.x) * (line2.p2.y - line2.p1.y) -
      (line2.p1.y - line1.p1.y) * (line2.p2.x - line2.p1.x)) /
    lsiDenom line1 line2

/-- Parameter `u` (position along segment 2) of the parametric system. -/
def lsiU (line1 line2 : Line) : ℚ :=
  ((line2.p1.x - line1.p1.x) * (line1.p2.y - line1.p1.y) -
      (line2.p1.y - line1.p1.y) * (line1.p2.x - line1.p1.x)) /
    lsiDenom line1 line2

/-- The shoelace signed sum over the ordered vertices with wraparound,
as the specification describes it (§4.4). -/
def shoelaceSum (points : List Point) : ℚ :=
  ∑ i ∈ Finset.range points.length,
    ((getP points i).x * (getP points ((i + 1) % points.length)).y -
      (getP points ((i + 1) % points.length)).x * (getP points i).y)

/-- Two points are near-duplicates when both coordinate differences are
below `EPSILON` (the specification's dedup criterion, §4.2). -/
def nearDup (a b : Point) : Prop :=
  |a.x - b.x| < EPSILON ∧ |a.y - b.y| < EPSILON

instance : DecidableRel nearDup := fun a b =>
  inferInstanceAs (Decidable (|a.x - b.x| < EPSILON ∧ |a.y - b.y| < EPSILON))

/-! ### General lemmas about the embedded operations -/

theorem EPSILON_pos : 0 < EPSILON := by norm_num [EPSILON]

theorem rabs_nonneg (q : ℚ) : 0 ≤ rabs q := by
  rw [rabs_eq_abs]; exact abs_nonneg q

theorem roundRust_nonneg {q : ℚ} (h : 0 ≤ q) : 0 ≤ roundRust q := by
  rw [roundRust, if_pos h, rfloor_eq_floor]
  exact Int.le_floor.mpr (by push_cast; linarith)

theorem polygon_area_nonneg (points : List Point) : 0 ≤ polygon_area points := by
  simp only [polygon_area]
  split
  · exact le_refl 0
  · refine div_nonneg ?_ (by norm_num)
    exact_mod_cast roundRust_nonneg
      (mul_nonneg (rabs_nonneg _) (by norm_num))

theorem foldl_add_sub_eq_sum (f g : ℕ → ℚ) (n : ℕ) :
    (List.range n).foldl (fun acc i => acc + f i - g i) 0 =
      ∑ i ∈ Finset.range n, (f i - g i) := by
  induction n with
  | zero => simp
  | succ m ih =>
    rw [List.range_succ, List.foldl_append, Finset.sum_range_succ, ih]
    simp only [List.foldl_cons, List.foldl_nil]
    ring

/-! ### Claim theorems -/

/-- **C2**: for every pair of segments, `line_segment_intersection`
returns no intersection when the absolute value of the cross-product
denominator is below `1e-10`; otherwise it returns an intersection point
exactly when both parameters `t` and `u` lie in `[0 - ε, 1 + ε]` with
`ε = 1e-10`, and the returned point is computed from segment 1's
parametric position `(x1 + t·dx1, y1 + t·dy1)`. -/
theorem C2_line_segment_intersection (line1 line2 : Line) :
    (|lsiDenom line1 line2| < EPSILON →
      line_segment_intersection line1 line2 = none) ∧
    (EPSILON ≤ |lsiDenom line1 line2| →
      ∀ p : Point,
        line_segment_intersection line1 line2 = some p ↔
          (-EPSILON ≤ lsiT line1 line2 ∧ lsiT line1 line2 ≤ 1 + EPSILON ∧
            -EPSILON ≤ lsiU line1 line2 ∧ lsiU line1 line2 ≤ 1 + EPSILON ∧
            p = ⟨line1.p1.x + lsiT line1 line2 * (line1.p2.x - line1.p1.x),
                 line1.p1.y + lsiT line1 line2 * (line1.p2.y - line1.p1.y)⟩)) := by
  simp only [line_segment_intersection, lsiT, lsiU, lsiDenom, rabs_eq_abs]
  constructor
  · intro h
    rw [if_pos h]
  · intro h p
    rw [if_neg (not_lt.mpr h)]
    split
    · next hcond =>
      obtain ⟨h1, h2, h3, h4⟩ := hcond
      constructor
      · intro hp
        injection hp with hp
        exact ⟨h1, h2, h3, h4, hp.symm⟩
      · rintro ⟨-, -, -, -, rfl⟩
        rfl
    · next hcond =>
      constructor
      · intro hp
        exact absurd hp (by simp)
      · rintro ⟨h1, h2, h3, h4, -⟩
        exact absurd ⟨h1, h2, h3, h4⟩ hcond

/-- Witness for C2: a parallel pair is rejected through the first clause,
and the crossing of the two unit-square diagonals is accepted at
`(1/2, 1/2)` through the second clause. -/
theorem C2_line_segment_intersection_witness :
    line_segment_intersection ⟨⟨0, 0⟩, ⟨1, 1⟩⟩ ⟨⟨3, 3⟩, ⟨4, 4⟩⟩ = none ∧
    line_segment_intersection ⟨⟨0, 0⟩, ⟨1, 1⟩⟩ ⟨⟨0, 1⟩, ⟨1, 0⟩⟩ =
      some ⟨1/2, 1/2⟩ := by
  constructor
  · exact (C2_line_segment_intersection _ _).1
      (by norm_num [lsiDenom, EPSILON])
  · exact ((C2_line_segment_intersection _ _).2
      (by norm_num [lsiDenom, EPSILON]) _).mpr
      (by norm_num [lsiT, lsiU, lsiDenom, EPSILON])

/-- **C7**: `polygon_area` returns `0` when the list has fewer than 3
points; otherwise it returns the absolute value of half the shoelace
signed sum over the ordered vertices with wraparound, rounded to 7
decimal digits by multiplying by `10,000,000`, rounding to the nearest
integer (half away from zero, as `f64::round` does), and dividing
back. -/
theorem C7_polygon_area (points : List Point) :
    (points.length < 3 → polygon_area points = 0) ∧
    (3 ≤ points.length →
      polygon_area points =
        (⌊|shoelaceSum points| / 2 * 10000000 + 1 / 2⌋ : ℚ) / 10000000) := by
  constructor
  · intro h
    simp only [polygon_area]
    rw [if_pos h]
  · intro h
    simp only [polygon_area, shoelaceSum]
    rw [if_neg (not_lt.mpr h),
      foldl_add_sub_eq_sum
        (fun i => (getP points i).x * (getP points ((i + 1) % points.length)).y)
        (fun i => (getP points ((i + 1) % points.length)).x * (getP points i).y)]
    rw [roundRust, if_pos (mul_nonneg (rabs_nonneg _) (by norm_num)),
      rfloor_eq_floor]
    rw [rabs_eq_abs, abs_div]
    norm_num

/-- Witness for C7: a two-point list has area `0`, and a triangle takes
the rounded-shoelace value. -/
theorem C7_polygon_area_witness :
    polygon_area [⟨0, 0⟩, ⟨1, 0⟩] = 0 ∧
    polygon_area [⟨0, 0⟩, ⟨1, 0⟩, ⟨1, 1⟩] =
      (⌊|shoelaceSum [⟨0, 0⟩, ⟨1, 0⟩, ⟨1, 1⟩]| / 2 * 10000000 + 1 / 2⌋ : ℚ) /
        10000000 := by
  constructor
  · exact (C7_polygon_area _).1 (by norm_num)
  · exact (C7_polygon_area _).2 (by norm_num)

/-- **C8**: applying the driver with an empty list of cutting lines
returns exactly `polygon_area` of the input polygon. -/
theorem C8_empty_lines (poly : List Point) :
    get_largest_polygon_area poly [] = polygon_area poly := by
  have h := polygon_area_nonneg poly
  simp only [get_largest_polygon_area, List.foldl_nil, List.foldl_cons]
  split
  · rfl
  · next hn => exact (le_antisymm (not_lt.mp hn) h).symm

/-- **C4**: `split_polygon` returns `none` exactly when the number of
distinct boundary intersections found by the edge scanner is not 2;
every successful result holds exactly two polygons; and the driver's
per-line pass keeps a polygon unchanged in the next working set whenever
its split fails. -/
theorem C4_split_failure_policy (poly : List Point) (line : Line) :
    (split_polygon poly line = none ↔
      (find_intersections poly line).length ≠ 2) ∧
    (∀ r, split_polygon poly line = some r → r.length = 2) ∧
    (∀ polys : List (List Point), ∀ p ∈ polys,
      split_polygon p line = none → p ∈ apply_line polys line) := by
  refine ⟨?_, ?_, ?_⟩
  · simp only [split_polygon]
    split
    · next h => simp [h]
    · next h => simp [h]
  · intro r hr
    simp only [split_polygon] at hr
    split at hr
    · exact absurd hr (by simp)
    · injection hr with hr
      rw [← hr]
      rfl
  · intro polys p hp hnone
    simp only [apply_line]
    exact List.mem_flatMap.mpr ⟨p, hp, by simp [hnone]⟩

/-! ### The split loop: membership lemmas -/

theorem split_step_mem_pa {x : Point} {s : SplitState}
    {poly : List Point} {line : Line} {I : List Point} {i : ℕ}
    (h : x ∈ s.pa) : x ∈ (split_step poly line I s i).pa := by
  unfold split_step
  dsimp only []
  cases line_segment_intersection line
      ⟨getP poly i, getP poly ((i + 1) % poly.length)⟩ with
  | none =>
    dsimp only []
    split <;> simp [List.mem_append, h]
  | some ip =>
    dsimp only []
    repeat' split
    all_goals simp [List.mem_append, h]

theorem split_step_mem_pb {x : Point} {s : SplitState}
    {poly : List Point} {line : Line} {I : List Point} {i : ℕ}
    (h : x ∈ s.pb) : x ∈ (split_step poly line I s i).pb := by
  unfold split_step
  dsimp only []
  cases line_segment_intersection line
      ⟨getP poly i, getP poly ((i + 1) % poly.length)⟩ with
  | none =>
    dsimp only []
    split <;> simp [List.mem_append, h]
  | some ip =>
    dsimp only []
    repeat' split
    all_goals simp [List.mem_append, h]

theorem foldl_split_step_mem_pa {x : Point}
    {poly : List Point} {line : Line} {I : List Point}
    (l : List ℕ) (s : SplitState) (h : x ∈ s.pa) :
    x ∈ (l.foldl (split_step poly line I) s).pa := by
  induction l generalizing s with
  | nil => exact h
  | cons j t ih => exact ih _ (split_step_mem_pa h)

theorem foldl_split_step_mem_pb {x : Point}
    {poly : List Point} {line : Line} {I : List Point}
    (l : List ℕ) (s : SplitState) (h : x ∈ s.pb) :
    x ∈ (l.foldl (split_step poly line I) s).pb := by
  induction l generalizing s with
  | nil => exact h
  | cons j t ih => exact ih _ (split_step_mem_pb h)

theorem split_step_adds_pa {poly : List Point} {line : Line}
    {I : List Point} {s : SplitState} {i : ℕ}
    (h : -EPSILON ≤ point_line_side line (getP poly i)) :
    getP poly i ∈ (split_step poly line I s i).pa := by
  unfold split_step
  dsimp only []
  rw [if_pos (show point_line_side line (getP poly i) ≥ -EPSILON from h)]
  cases line_segment_intersection line
      ⟨getP poly i, getP poly ((i + 1) % poly.length)⟩ with
  | none =>
    dsimp only []
    simp [List.mem_append]
  | some ip =>
    dsimp only []
    repeat' split
    all_goals simp [List.mem_append]

theorem split_step_adds_pb {poly : List Point} {line : Line}
    {I : List Point} {s : SplitState} {i : ℕ}
    (h : point_line_side line (getP poly i) ≤ EPSILON) :
    getP poly i ∈ (split_step poly line I s i).pb := by
  unfold split_step
  dsimp only []
  rw [if_pos h]
  cases line_segment_intersection line
      ⟨getP poly i, getP poly ((i + 1) % poly.length)⟩ with
  | none =>
    dsimp only []
    simp [List.mem_append]
  | some ip =>
    dsimp only []
    repeat' split
    all_goals simp [List.mem_append]

theorem foldl_split_step_adds_pa {poly : List Point} {line : Line}
    {I : List Point} {i : ℕ}
    (l : List ℕ) (s : SplitState) (hi : i ∈ l)
    (h : -EPSILON ≤ point_line_side line (getP poly i)) :
    getP poly i ∈ (l.foldl (split_step poly line I) s).pa := by
  induction l generalizing s with
  | nil => cases hi
  | cons j t ih =>
    rcases List.mem_cons.mp hi with rfl | hmem
    · exact foldl_split_step_mem_pa t _ (split_step_adds_pa h)
    · exact ih _ hmem

theorem foldl_split_step_adds_pb {poly : List Point} {line : Line}
    {I : List Point} {i : ℕ}
    (l : List ℕ) (s : SplitState) (hi : i ∈ l)
    (h : point_line_side line (getP poly i) ≤ EPSILON) :
    getP poly i ∈ (l.foldl (split_step poly line I) s).pb := by
  induction l generalizing s with
  | nil => cases hi
  | cons j t ih =>
    rcases List.mem_cons.mp hi with rfl | hmem
    · exact foldl_split_step_mem_pb t _ (split_step_adds_pb h)
    · exact ih _ hmem

/-- Destruct a successful `split_polygon` run into its parts. -/
theorem split_polygon_dest {poly : List Point} {line : Line}
    {pa pb : List Point} (h : split_polygon poly line = some [pa, pb]) :
    (find_intersections poly line).length = 2 ∧
    pa = (split_scan poly line).pa ∧ pb = (split_scan poly line).pb := by
  simp only [split_polygon] at h
  split at h
  · exact absurd h (by simp)
  · next hlen =>
    injection h with h
    simp only [List.cons.injEq, and_true] at h
    exact ⟨not_ne_iff.mp hlen, h.1.symm, h.2.symm⟩

theorem vertex_mem_pa {poly : List Point} {line : Line}
    {pa pb : List Point} (h : split_polygon poly line = some [pa, pb])
    {v : Point} (hv : v ∈ poly)
    (hs : -EPSILON ≤ point_line_side line v) : v ∈ pa := by
  obtain ⟨-, hpa, -⟩ := split_polygon_dest h
  obtain ⟨i, hi, rfl⟩ := List.getElem_of_mem hv
  have hg : getP poly i = poly[i] := List.getD_eq_getElem poly _ hi
  rw [hpa, split_scan, ← hg]
  exact foldl_split_step_adds_pa _ _ (List.mem_range.mpr hi) (hg ▸ hs)

theorem vertex_mem_pb {poly : List Point} {line : Line}
    {pa pb : List Point} (h : split_polygon poly line = some [pa, pb])
    {v : Point} (hv : v ∈ poly)
    (hs : point_line_side line v ≤ EPSILON) : v ∈ pb := by
  obtain ⟨-, -, hpb⟩ := split_polygon_dest h
  obtain ⟨i, hi, rfl⟩ := List.getElem_of_mem hv
  have hg : getP poly i = poly[i] := List.getD_eq_getElem poly _ hi
  rw [hpb, split_scan, ← hg]
  exact foldl_split_step_adds_pb _ _ (List.mem_range.mpr hi) (hg ▸ hs)

/-- **C5**: for every input vertex, a signed side value `≥ -ε` places
the vertex in side-A's polygon and a value `≤ +ε` places it in side-B's
polygon; in particular every vertex whose side value is within `ε` of
zero appears in both output polygons. -/
theorem C5_side_assignment (poly : List Point) (line : Line)
    (pa pb : List Point) (h : split_polygon poly line = some [pa, pb])
    (v : Point) (hv : v ∈ poly) :
    (-EPSILON ≤ point_line_side line v → v ∈ pa) ∧
    (point_line_side line v ≤ EPSILON → v ∈ pb) ∧
    (|point_line_side line v| ≤ EPSILON → v ∈ pa ∧ v ∈ pb) := by
  refine ⟨fun hs => vertex_mem_pa h hv hs,
          fun hs => vertex_mem_pb h hv hs,
          fun hs => ?_⟩
  obtain ⟨h1, h2⟩ := abs_le.mp hs
  exact ⟨vertex_mem_pa h hv (by linarith), vertex_mem_pb h hv h2⟩

/-- **C10**: whenever `split_polygon` returns two output polygons, every
vertex of the input polygon appears in at least one of the two outputs:
the side classification is exhaustive. -/
theorem C10_classification_exhaustive (poly : List Point) (line : Line)
    (pa pb : List Point) (h : split_polygon poly line = some [pa, pb]) :
    ∀ v ∈ poly, v ∈ pa ∨ v ∈ pb := by
  intro v hv
  rcases le_or_lt (-EPSILON) (point_line_side line v) with hs | hs
  · exact Or.inl (vertex_mem_pa h hv hs)
  · refine Or.inr (vertex_mem_pb h hv ?_)
    have := EPSILON_pos
    linarith

/-! ### Deduplication lemmas -/

theorem dedupByGo_sublist (p : Point → Point → Bool) (last : Point) :
    ∀ l : List Point, List.Sublist (dedupByGo p last l) l
  | [] => List.Sublist.refl []
  | y :: ys => by
    unfold dedupByGo
    split
    · exact (dedupByGo_sublist p last ys).trans (List.sublist_cons_self y ys)
    · exact (dedupByGo_sublist p y ys).cons₂ y

theorem dedupBy_sublist (p : Point → Point → Bool) (l : List Point) :
    List.Sublist (dedupBy p l) l := by
  cases l with
  | nil => exact List.Sublist.refl []
  | cons x xs => exact (dedupByGo_sublist p x xs).cons₂ x

theorem dedupByGo_chain (p : Point → Point → Bool) (last : Point)
    (l : List Point) :
    (last :: dedupByGo p last l).Chain' (fun a b => p b a = false) := by
  induction l generalizing last with
  | nil => simp [dedupByGo]
  | cons y ys ih =>
    unfold dedupByGo
    split
    · exact ih last
    · next hp =>
      have := ih y
      exact List.chain'_cons.mpr ⟨Bool.of_not_eq_true hp, this⟩

theorem dedupBy_chain (p : Point → Point → Bool) (l : List Point) :
    (dedupBy p l).Chain' (fun a b => p b a = false) := by
  cases l with
  | nil => simp [dedupBy]
  | cons x xs => exact dedupByGo_chain p x xs

/-- Every point reported by the edge scanner is the exact intersection
value computed on some edge of the polygon. -/
theorem mem_find_intersections {poly : List Point} {line : Line}
    {q : Point} (h : q ∈ find_intersections poly line) :
    ∃ i ∈ List.range poly.length,
      line_segment_intersection line
        ⟨getP poly i, getP poly ((i + 1) % poly.length)⟩ = some q := by
  unfold find_intersections at h
  dsimp only [] at h
  have h2 := (dedupBy_sublist _ _).mem h
  rw [List.mem_insertionSort] at h2
  obtain ⟨i, hi, hq⟩ := List.mem_filterMap.mp h2
  exact ⟨i, hi, hq⟩

/-! ### Insertion counters of the split loop -/

theorem split_step_n1_le {poly : List Point} {line : Line}
    {I : List Point} {s : SplitState} {i : ℕ} :
    s.n1 ≤ (split_step poly line I s i).n1 := by
  unfold split_step
  dsimp only []
  cases line_segment_intersection line
      ⟨getP poly i, getP poly ((i + 1) % poly.length)⟩ with
  | none => exact Nat.le_refl _
  | some ip =>
    dsimp only []
    repeat' split
    all_goals simp

theorem point_eq {p q : Point} (hx : p.x = q.x) (hy : p.y = q.y) :
    p = q := by
  cases p; cases q; simp_all

theorem split_step_n2_le {poly : List Point} {line : Line}
    {I : List Point} {s : SplitState} {i : ℕ} :
    s.n2 ≤ (split_step poly line I s i).n2 := by
  unfold split_step
  dsimp only []
  cases line_segment_intersection line
      ⟨getP poly i, getP poly ((i + 1) % poly.length)⟩ with
  | none => exact Nat.le_refl _
  | some ip =>
    dsimp only []
    repeat' split
    all_goals simp

/-- Case analysis for the first insertion counter: one pass of the loop
either leaves it unchanged, or increments it from `0` to `1` while
appending the first registered intersection point to both sides. -/
theorem split_step_n1_cases {poly : List Point} {line : Line}
    {I : List Point} {s : SplitState} {i : ℕ} :
    (split_step poly line I s i).n1 = s.n1 ∨
    ((split_step poly line I s i).n1 = s.n1 + 1 ∧ s.n1 = 0 ∧
      getP I 0 ∈ (split_step poly line I s i).pa ∧
      getP I 0 ∈ (split_step poly line I s i).pb) := by
  unfold split_step
  dsimp only []
  cases line_segment_intersection line
      ⟨getP poly i, getP poly ((i + 1) % poly.length)⟩ with
  | none => exact Or.inl rfl
  | some ip =>
    dsimp only []
    split
    · split
      · next hc =>
        obtain ⟨hx, hy, h0⟩ := hc
        have hip : getP I 0 = ip := point_eq hx hy
        exact Or.inr ⟨rfl, h0, by simp [hip], by simp [hip]⟩
      · split
        · exact Or.inl rfl
        · exact Or.inl rfl
    · exact Or.inl rfl

/-- Case analysis for the second insertion counter. -/
theorem split_step_n2_cases {poly : List Point} {line : Line}
    {I : List Point} {s : SplitState} {i : ℕ} :
    (split_step poly line I s i).n2 = s.n2 ∨
    ((split_step poly line I s i).n2 = s.n2 + 1 ∧ s.n2 = 0 ∧
      getP I 1 ∈ (split_step poly line I s i).pa ∧
      getP I 1 ∈ (split_step poly line I s i).pb) := by
  unfold split_step
  dsimp only []
  cases line_segment_intersection line
      ⟨getP poly i, getP poly ((i + 1) % poly.length)⟩ with
  | none => exact Or.inl rfl
  | some ip =>
    dsimp only []
    split
    · split
      · exact Or.inl rfl
      · split
        · next hc =>
          obtain ⟨-, hx, hy, h0⟩ := hc
          have hip : getP I 1 = ip := point_eq hx hy
          exact Or.inr ⟨rfl, h0, by simp [hip], by simp [hip]⟩
        · exact Or.inl rfl
    · exact Or.inl rfl

/-- When the loop reaches the edge whose intersection is exactly the
first registered point, the first counter becomes positive. -/
theorem split_step_fires_n1 {poly : List Point} {line : Line}
    {I : List Point} {s : SplitState} {i : ℕ}
    (hip : line_segment_intersection line
      ⟨getP poly i, getP poly ((i + 1) % poly.length)⟩ = some (getP I 0))
    (hne : I ≠ []) : 1 ≤ (split_step poly line I s i).n1 := by
  unfold split_step
  dsimp only []
  rw [hip]
  dsimp only []
  rw [if_pos hne]
  rcases Nat.eq_zero_or_pos s.n1 with h0 | hpos
  · rw [if_pos ⟨rfl, rfl, h0⟩]
    simp
  · rw [if_neg (fun hc => by omega)]
    split
    · exact hpos
    · exact hpos

/-- When the loop reaches the edge whose intersection is exactly the
second registered point, the second counter becomes positive. -/
theorem split_step_fires_n2 {poly : List Point} {line : Line}
    {I : List Point} {s : SplitState} {i : ℕ}
    (hip : line_segment_intersection line
      ⟨getP poly i, getP poly ((i + 1) % poly.length)⟩ = some (getP I 1))
    (hlen : I.length = 2)
    (hne01 : ¬((getP I 0).x = (getP I 1).x ∧ (getP I 0).y = (getP I 1).y)) :
    1 ≤ (split_step poly line I s i).n2 := by
  unfold split_step
  dsimp only []
  rw [hip]
  dsimp only []
  rw [if_pos (show I ≠ [] by intro h; rw [h] at hlen; simp at hlen)]
  rw [if_neg (fun hc => hne01 ⟨hc.1, hc.2.1⟩)]
  rcases Nat.eq_zero_or_pos s.n2 with h0 | hpos
  · rw [if_pos ⟨by omega, rfl, rfl, h0⟩]
    simp
  · rw [if_neg (fun hc => by omega)]
    exact hpos

theorem foldl_split_step_n1_mono {poly : List Point} {line : Line}
    {I : List Point} (l : List ℕ) (s : SplitState) :
    s.n1 ≤ (l.foldl (split_step poly line I) s).n1 := by
  induction l generalizing s with
  | nil => exact Nat.le_refl _
  | cons j t ih => exact le_trans split_step_n1_le (ih _)

theorem foldl_split_step_n2_mono {poly : List Point} {line : Line}
    {I : List Point} (l : List ℕ) (s : SplitState) :
    s.n2 ≤ (l.foldl (split_step poly line I) s).n2 := by
  induction l generalizing s with
  | nil => exact Nat.le_refl _
  | cons j t ih => exact le_trans split_step_n2_le (ih _)

theorem foldl_split_step_n1_le_one {poly : List Point} {line : Line}
    {I : List Point} (l : List ℕ) (s : SplitState) (h : s.n1 ≤ 1) :
    (l.foldl (split_step poly line I) s).n1 ≤ 1 := by
  induction l generalizing s with
  | nil => exact h
  | cons j t ih =>
    refine ih _ ?_
    rcases @split_step_n1_cases poly line I s j with hc | ⟨hc, h0, -, -⟩
    · omega
    · omega

theorem foldl_split_step_n2_le_one {poly : List Point} {line : Line}
    {I : List Point} (l : List ℕ) (s : SplitState) (h : s.n2 ≤ 1) :
    (l.foldl (split_step poly line I) s).n2 ≤ 1 := by
  induction l generalizing s with
  | nil => exact h
  | cons j t ih =>
    refine ih _ ?_
    rcases @split_step_n2_cases poly line I s j with hc | ⟨hc, h0, -, -⟩
    · omega
    · omega

theorem foldl_split_step_keeps_q0 {poly : List Point} {line : Line}
    {I : List Point} (l : List ℕ) (s : SplitState)
    (hmem : s.n1 = 1 → getP I 0 ∈ s.pa ∧ getP I 0 ∈ s.pb) :
    (l.foldl (split_step poly line I) s).n1 = 1 →
      getP I 0 ∈ (l.foldl (split_step poly line I) s).pa ∧
      getP I 0 ∈ (l.foldl (split_step poly line I) s).pb := by
  induction l generalizing s with
  | nil => exact hmem
  | cons j t ih =>
    refine ih _ ?_
    intro h1
    rcases @split_step_n1_cases poly line I s j with hc | ⟨-, -, hpa, hpb⟩
    · obtain ⟨ha, hb⟩ := hmem (hc ▸ h1)
      exact ⟨split_step_mem_pa ha, split_step_mem_pb hb⟩
    · exact ⟨hpa, hpb⟩

theorem foldl_split_step_keeps_q1 {poly : List Point} {line : Line}
    {I : List Point} (l : List ℕ) (s : SplitState)
    (hmem : s.n2 = 1 → getP I 1 ∈ s.pa ∧ getP I 1 ∈ s.pb) :
    (l.foldl (split_step poly line I) s).n2 = 1 →
      getP I 1 ∈ (l.foldl (split_step poly line I) s).pa ∧
      getP I 1 ∈ (l.foldl (split_step poly line I) s).pb := by
  induction l generalizing s with
  | nil => exact hmem
  | cons j t ih =>
    refine ih _ ?_
    intro h1
    rcases @split_step_n2_cases poly line I s j with hc | ⟨-, -, hpa, hpb⟩
    · obtain ⟨ha, hb⟩ := hmem (hc ▸ h1)
      exact ⟨split_step_mem_pa ha, split_step_mem_pb hb⟩
    · exact ⟨hpa, hpb⟩

theorem foldl_split_step_fires_n1 {poly : List Point} {line : Line}
    {I : List Point} {i : ℕ} (l : List ℕ) (s : SplitState) (hi : i ∈ l)
    (hip : line_segment_intersection line
      ⟨getP poly i, getP poly ((i + 1) % poly.length)⟩ = some (getP I 0))
    (hne : I ≠ []) :
    1 ≤ (l.foldl (split_step poly line I) s).n1 := by
  induction l generalizing s with
  | nil => cases hi
  | cons j t ih =>
    rcases List.mem_cons.mp hi with rfl | hmem
    · exact le_trans (split_step_fires_n1 hip hne)
        (foldl_split_step_n1_mono t _)
    · exact ih _ hmem

theorem foldl_split_step_fires_n2 {poly : List Point} {line : Line}
    {I : List Point} {i : ℕ} (l : List ℕ) (s : SplitState) (hi : i ∈ l)
    (hip : line_segment_intersection line
      ⟨getP poly i, getP poly ((i + 1) % poly.length)⟩ = some (getP I 1))
    (hlen : I.length = 2)
    (hne01 : ¬((getP I 0).x = (getP I 1).x ∧ (getP I 0).y = (getP I 1).y)) :
    1 ≤ (l.foldl (split_step poly line I) s).n2 := by
  induction l generalizing s with
  | nil => cases hi
  | cons j t ih =>
    rcases List.mem_cons.mp hi with rfl | hmem
    · exact le_trans (split_step_fires_n2 hip hlen hne01)
        (foldl_split_step_n2_mono t _)
    · exact ih _ hmem

/-- With exactly two registered intersections, the two registered points
are members of the scanner output and differ in at least one
coordinate. -/
theorem find_intersections_two_facts {poly : List Point} {line : Line}
    (hlen : (find_intersections poly line).length = 2) :
    getP (find_intersections poly line) 0 ∈ find_intersections poly line ∧
    getP (find_intersections poly line) 1 ∈ find_intersections poly line ∧
    ¬((getP (find_intersections poly line) 0).x =
        (getP (find_intersections poly line) 1).x ∧
      (getP (find_intersections poly line) 0).y =
        (getP (find_intersections poly line) 1).y) := by
  obtain ⟨a, b, hab⟩ := List.length_eq_two.mp hlen
  have hchain : (find_intersections poly line).Chain'
      (fun x y => dupPred y x = false) := dedupBy_chain _ _
  rw [hab] at hchain ⊢
  have hdup : dupPred b a = false := (List.chain'_cons.mp hchain).1
  have hne : ¬(a.x = b.x ∧ a.y = b.y) := by
    rintro ⟨hx, hy⟩
    have hpos := EPSILON_pos
    simp only [dupPred, hx, hy, sub_self, Bool.and_eq_false_iff,
      decide_eq_false_iff_not, not_lt] at hdup
    rcases hdup with h | h <;>
      rw [show rabs 0 = 0 from rfl] at h <;> exact absurd h (by linarith)
  exact ⟨by simp [getP], by simp [getP], by simpa [getP] using hne⟩

/-- **C6**: on every successful split, each of the two registered
crossing points is inserted exactly once (insertion counter exactly `1`)
into each of the two output polygons, and consequently belongs to
both. -/
theorem C6_crossings_inserted_once (poly : List Point) (line : Line)
    (pa pb : List Point) (h : split_polygon poly line = some [pa, pb]) :
    (split_scan poly line).n1 = 1 ∧ (split_scan poly line).n2 = 1 ∧
    getP (find_intersections poly line) 0 ∈ pa ∧
    getP (find_intersections poly line) 0 ∈ pb ∧
    getP (find_intersections poly line) 1 ∈ pa ∧
    getP (find_intersections poly line) 1 ∈ pb := by
  obtain ⟨hlen, hpa, hpb⟩ := split_polygon_dest h
  obtain ⟨hm0, hm1, hne⟩ := find_intersections_two_facts hlen
  obtain ⟨i0, hi0, hip0⟩ := mem_find_intersections hm0
  obtain ⟨i1, hi1, hip1⟩ := mem_find_intersections hm1
  have hnonempty : find_intersections poly line ≠ [] := by
    intro hnil; rw [hnil] at hlen; simp at hlen
  have h1le : 1 ≤ (split_scan poly line).n1 :=
    foldl_split_step_fires_n1 _ _ hi0 hip0 hnonempty
  have h1ge : (split_scan poly line).n1 ≤ 1 :=
    foldl_split_step_n1_le_one _ _ (by simp)
  have h2le : 1 ≤ (split_scan poly line).n2 :=
    foldl_split_step_fires_n2 _ _ hi1 hip1 hlen hne
  have h2ge : (split_scan poly line).n2 ≤ 1 :=
    foldl_split_step_n2_le_one _ _ (by simp)
  have hn1 : (split_scan poly line).n1 = 1 := le_antisymm h1ge h1le
  have hn2 : (split_scan poly line).n2 = 1 := le_antisymm h2ge h2le
  obtain ⟨hq0a, hq0b⟩ :=
    foldl_split_step_keeps_q0 _ _ (by intro h1; simp at h1) hn1
  obtain ⟨hq1a, hq1b⟩ :=
    foldl_split_step_keeps_q1 _ _ (by intro h1; simp at h1) hn2
  exact ⟨hn1, hn2, hpa ▸ hq0a, hpb ▸ hq0b, hpa ▸ hq1a, hpb ▸ hq1b⟩

/-! ### Sortedness and distinctness of the edge-scanner output (C3) -/

/-- Points reported by `line_segment_intersection` lie exactly on the
parametric line of segment 1. -/
theorem lsi_on_line {line1 line2 : Line} {p : Point}
    (h : line_segment_intersection line1 line2 = some p) :
    ∃ t, p.x = line1.p1.x + t * (line1.p2.x - line1.p1.x) ∧
         p.y = line1.p1.y + t * (line1.p2.y - line1.p1.y) := by
  unfold line_segment_intersection at h
  dsimp only [] at h
  split at h
  · exact absurd h (by simp)
  · split at h
    · injection h with h
      subst h
      exact ⟨_, rfl, rfl⟩
    · exact absurd h (by simp)

theorem find_intersections_on_line {poly : List Point} {line : Line} :
    ∀ p ∈ find_intersections poly line,
      ∃ t, p.x = line.p1.x + t * (line.p2.x - line.p1.x) ∧
           p.y = line.p1.y + t * (line.p2.y - line.p1.y) := by
  intro p hp
  obtain ⟨i, -, hip⟩ := mem_find_intersections hp
  exact lsi_on_line hip

theorem find_intersections_sorted (poly : List Point) (line : Line) :
    (find_intersections poly line).Pairwise ptLe := by
  unfold find_intersections
  dsimp only []
  exact List.Pairwise.sublist (dedupBy_sublist _ _)
    (List.sorted_insertionSort ptLe _)

theorem not_nearDup_of_dupPred_false {x y : Point}
    (h : dupPred y x = false) : ¬ nearDup x y := by
  simp only [dupPred, rabs_eq_abs, Bool.and_eq_false_iff,
    decide_eq_false_iff_not, not_lt] at h
  rintro ⟨h1, h2⟩
  rcases h with h | h
  · rw [abs_sub_comm] at h; linarith
  · rw [abs_sub_comm] at h; linarith

theorem find_intersections_chain (poly : List Point) (line : Line) :
    (find_intersections poly line).Chain' (fun a b => ¬ nearDup a b) :=
  (dedupBy_chain _ _).imp fun _ _ h => not_nearDup_of_dupPred_false h

/-- In a list whose `x` coordinates are nondecreasing and whose `y`
coordinates are monotone in a fixed direction, the absence of adjacent
near-duplicates already rules out near-duplicates anywhere. -/
theorem pairwise_not_nearDup_of_mono :
    ∀ L : List Point,
      L.Pairwise (fun a b => a.x ≤ b.x) →
      (L.Pairwise (fun a b => a.y ≤ b.y) ∨
        L.Pairwise (fun a b => b.y ≤ a.y)) →
      L.Chain' (fun a b => ¬ nearDup a b) →
      L.Pairwise (fun a b => ¬ nearDup a b)
  | [], _, _, _ => List.Pairwise.nil
  | [a], _, _, _ => by simp
  | a :: b :: M, hx, hy, hc => by
    obtain ⟨hax, hxL⟩ := List.pairwise_cons.mp hx
    obtain ⟨hab, hcL⟩ := List.chain'_cons.mp hc
    have hyL : (b :: M).Pairwise (fun a b => a.y ≤ b.y) ∨
        (b :: M).Pairwise (fun a b => b.y ≤ a.y) := by
      rcases hy with h | h
      · exact Or.inl (List.pairwise_cons.mp h).2
      · exact Or.inr (List.pairwise_cons.mp h).2
    have ih := pairwise_not_nearDup_of_mono (b :: M) hxL hyL hcL
    refine List.pairwise_cons.mpr ⟨?_, ih⟩
    intro c hcmem
    rcases List.mem_cons.mp hcmem with rfl | hcM
    · exact hab
    · have hbxc : b.x ≤ c.x := (List.pairwise_cons.mp hxL).1 c hcM
      have haxb : a.x ≤ b.x := hax b (List.mem_cons_self b M)
      unfold nearDup at hab ⊢
      rw [not_and_or] at hab ⊢
      rcases hab with h1 | h2
      · left
        rw [not_lt] at h1 ⊢
        have e1 : |a.x - b.x| = b.x - a.x := by
          rw [abs_sub_comm, abs_of_nonneg (by linarith)]
        have e2 : |a.x - c.x| = c.x - a.x := by
          rw [abs_sub_comm, abs_of_nonneg (by linarith)]
        rw [e1] at h1
        rw [e2]
        linarith
      · right
        rw [not_lt] at h2 ⊢
        rcases hy with hyl | hyr
        · have hay : a.y ≤ b.y :=
            (List.pairwise_cons.mp hyl).1 b (List.mem_cons_self b M)
          have hby : b.y ≤ c.y :=
            (List.pairwise_cons.mp (List.pairwise_cons.mp hyl).2).1 c hcM
          have e1 : |a.y - b.y| = b.y - a.y := by
            rw [abs_sub_comm, abs_of_nonneg (by linarith)]
          have e2 : |a.y - c.y| = c.y - a.y := by
            rw [abs_sub_comm, abs_of_nonneg (by linarith)]
          rw [e1] at h2
          rw [e2]
          linarith
        · have hay : b.y ≤ a.y :=
            (List.pairwise_cons.mp hyr).1 b (List.mem_cons_self b M)
          have hby : c.y ≤ b.y :=
            (List.pairwise_cons.mp (List.pairwise_cons.mp hyr).2).1 c hcM
          have e1 : |a.y - b.y| = a.y - b.y := abs_of_nonneg (by linarith)
          have e2 : |a.y - c.y| = a.y - c.y := abs_of_nonneg (by linarith)
          rw [e1] at h2
          rw [e2]
          linarith

/-- On a lexicographically sorted list of points of one parametric line,
both coordinates are monotone. -/
theorem collinear_mono (L : List Point) (x1 y1 dx dy : ℚ)
    (honl : ∀ p ∈ L, ∃ t, p.x = x1 + t * dx ∧ p.y = y1 + t * dy)
    (hs : L.Pairwise ptLe) :
    L.Pairwise (fun a b => a.x ≤ b.x) ∧
    (L.Pairwise (fun a b => a.y ≤ b.y) ∨
      L.Pairwise (fun a b => b.y ≤ a.y)) := by
  have hx : L.Pairwise (fun a b => a.x ≤ b.x) := by
    refine hs.imp ?_
    rintro a b (h | ⟨h, -⟩)
    · exact le_of_lt h
    · exact le_of_eq h
  refine ⟨hx, ?_⟩
  by_cases hdx : dx = 0
  · left
    refine hs.imp_of_mem ?_
    intro a b ha hb hab
    obtain ⟨ta, hax, -⟩ := honl a ha
    obtain ⟨tb, hbx, -⟩ := honl b hb
    rcases hab with h | ⟨-, h⟩
    · rw [hax, hbx, hdx] at h
      simp at h
    · exact h
  · have key : ∀ a ∈ L, ∀ b ∈ L, a.x ≤ b.x →
        b.y - a.y = (b.x - a.x) * (dy / dx) := by
      intro a ha b hb hab
      obtain ⟨ta, hax, hay⟩ := honl a ha
      obtain ⟨tb, hbx, hby⟩ := honl b hb
      rw [hax, hbx, hay, hby]
      field_simp
      ring
    rcases le_or_lt 0 (dy / dx) with hm | hm
    · left
      refine hx.imp_of_mem ?_
      intro a b ha hb hab
      have hk := key a ha b hb hab
      nlinarith
    · right
      refine hx.imp_of_mem ?_
      intro a b ha hb hab
      have hk := key a ha b hb hab
      nlinarith

/-- **C3**: the list returned by `find_intersections` is sorted
ascending by `x` then by `y`, and no two points anywhere in the output
have both coordinate differences below `EPSILON`. -/
theorem C3_find_intersections_sorted_distinct (poly : List Point)
    (line : Line) :
    (find_intersections poly line).Pairwise ptLe ∧
    (find_intersections poly line).Pairwise (fun a b => ¬ nearDup a b) := by
  have hs := find_intersections_sorted poly line
  obtain ⟨hx, hy⟩ := collinear_mono (find_intersections poly line)
    line.p1.x line.p1.y (line.p2.x - line.p1.x) (line.p2.y - line.p1.y)
    find_intersections_on_line hs
  exact ⟨hs, pairwise_not_nearDup_of_mono _ hx hy
    (find_intersections_chain poly line)⟩

/-! ### Concrete evaluations -/

section ConcreteEvaluation

/- Batteries marks the `Rat` field operations `@[irreducible]`, which
stops `decide` from evaluating concrete rational computations during
elaboration; restore reducibility for the concrete checks below. -/
attribute [local semireducible] Rat.mul Rat.add Rat.sub Rat.inv

/-- **C9**: for the unit square, the diagonal cut `(0,0)-(1,1)` followed
by the vertical cut `(0.5,0)-(0.5,1)` yields a largest fragment area of
`0.375`. -/
theorem C9_sample_scenario :
    get_largest_polygon_area unitSquare [cutDiag, cutVert] = 3 / 8 := by
  decide

/-- Witness for C4: the far segment `(2,2)-(3,3)` misses the unit
square, so the split fails and the driver's pass keeps the square. -/
theorem C4_split_failure_policy_witness :
    split_polygon unitSquare farSegment = none ∧
    unitSquare ∈ apply_line [unitSquare] farSegment := by
  have h1 : split_polygon unitSquare farSegment = none :=
    (C4_split_failure_policy unitSquare farSegment).1.mpr (by decide)
  exact ⟨h1, (C4_split_failure_policy unitSquare farSegment).2.2
    [unitSquare] unitSquare (by simp) h1⟩

/-- Witness for C5: in the diagonal cut of the unit square, the vertex
`(1,0)` (side value `1`) lands in fragment A, and the vertex `(0,0)`
(side value `0`, within `ε` of the line) lands in both fragments. -/
theorem C5_side_assignment_witness :
    (⟨1, 0⟩ : Point) ∈ diagFragA ∧
    (⟨0, 0⟩ : Point) ∈ diagFragA ∧ (⟨0, 0⟩ : Point) ∈ diagFragB := by
  have hsplit : split_polygon unitSquare cutDiag =
      some [diagFragA, diagFragB] := by decide
  refine ⟨(C5_side_assignment unitSquare cutDiag diagFragA diagFragB
    hsplit ⟨1, 0⟩ (by decide)).1 (by decide), ?_⟩
  exact (C5_side_assignment unitSquare cutDiag diagFragA diagFragB
    hsplit ⟨0, 0⟩ (by decide)).2.2 (by decide)

/-- Witness for C6: in the diagonal cut of the unit square, both
registered crossing points (`(0,0)` and `(1,1)`) are inserted exactly
once into each fragment. -/
theorem C6_crossings_inserted_once_witness :
    (split_scan unitSquare cutDiag).n1 = 1 ∧
    (split_scan unitSquare cutDiag).n2 = 1 ∧
    getP (find_intersections unitSquare cutDiag) 0 ∈ diagFragA ∧
    getP (find_intersections unitSquare cutDiag) 0 ∈ diagFragB ∧
    getP (find_intersections unitSquare cutDiag) 1 ∈ diagFragA ∧
    getP (find_intersections unitSquare cutDiag) 1 ∈ diagFragB :=
  C6_crossings_inserted_once unitSquare cutDiag diagFragA diagFragB
    (by decide)

/-- Witness for C10: every vertex of the unit square lands in one of the
two fragments of the diagonal cut. -/
theorem C10_classification_exhaustive_witness :
    (⟨0, 1⟩ : Point) ∈ diagFragA ∨ (⟨0, 1⟩ : Point) ∈ diagFragB := by
  exact C10_classification_exhaustive unitSquare cutDiag diagFragA
    diagFragB (by decide) ⟨0, 1⟩ (by decide)

/-- **C1, counterexample**: the claim fails as stated.  The cutting
segment `uShapeCut` crosses the boundary of the simple U-shaped polygon
`uShape` at exactly two points, so `split_polygon` succeeds, but the
side classification works with the infinite line, which also crosses the
right arm of the U: the two fragments have areas `7/2` and `1` while the
original polygon has area `7`, an error of `5/2`, far beyond `1e-6`. -/
theorem C1_area_sum_counterexample :
    split_polygon uShape uShapeCut = some [uShapeFragA, uShapeFragB] ∧
    polygon_area uShapeFragA + polygon_area uShapeFragB = 9 / 2 ∧
    polygon_area uShape = 7 ∧
    ¬(|polygon_area uShapeFragA + polygon_area uShapeFragB -
        polygon_area uShape| ≤ 1 / 1000000) := by
  have ha : polygon_area uShapeFragA = 7 / 2 := by decide
  have hb : polygon_area uShapeFragB = 1 := by decide
  have hp : polygon_area uShape = 7 := by decide
  refine ⟨by decide, by rw [ha, hb]; norm_num, hp, ?_⟩
  have habs : |polygon_area uShapeFragA + polygon_area uShapeFragB -
      polygon_area uShape| = 5 / 2 := by
    rw [ha, hb, hp,
      show (7 : ℚ) / 2 + 1 - 7 = -(5 / 2) from by norm_num, abs_neg]
    exact abs_of_nonneg (by norm_num)
  rw [habs]
  norm_num

/-- **C1, amended**: for the unit square and each of the cutting
segments of the spec's concrete scenarios, `split_polygon` succeeds and
`polygon_area` of the first fragment plus `polygon_area` of the second
fragment equals `polygon_area` of the square within `1e-6`. -/
theorem C1_amended_fragment_area_sum :
    ∀ line ∈ [cutDiag, cutVert, cutHoriz, cutOffDiag, cutHighPrec],
      ∃ fa fb, split_polygon unitSquare line = some [fa, fb] ∧
        |polygon_area fa + polygon_area fb - polygon_area unitSquare| ≤
          1 / 1000000 := by
  intro line hline
  fin_cases hline
  · refine ⟨diagFragA, diagFragB, by decide, ?_⟩
    rw [show polygon_area diagFragA + polygon_area diagFragB -
      polygon_area unitSquare = 0 from by decide]
    norm_num
  · refine ⟨[⟨1/2, 0⟩, ⟨1, 0⟩, ⟨1, 1⟩, ⟨1/2, 1⟩],
      [⟨0, 0⟩, ⟨1/2, 0⟩, ⟨1/2, 1⟩, ⟨0, 1⟩], by decide, ?_⟩
    rw [show polygon_area [⟨1/2, 0⟩, ⟨1, 0⟩, ⟨1, 1⟩, ⟨1/2, 1⟩] +
      polygon_area [⟨0, 0⟩, ⟨1/2, 0⟩, ⟨1/2, 1⟩, ⟨0, 1⟩] -
      polygon_area unitSquare = 0 from by decide]
    norm_num
  · refine ⟨[⟨0, 0⟩, ⟨1, 0⟩, ⟨1, 1/2⟩, ⟨0, 1/2⟩],
      [⟨1, 1/2⟩, ⟨1, 1⟩, ⟨0, 1⟩, ⟨0, 1/2⟩], by decide, ?_⟩
    rw [show polygon_area [⟨0, 0⟩, ⟨1, 0⟩, ⟨1, 1/2⟩, ⟨0, 1/2⟩] +
      polygon_area [⟨1, 1/2⟩, ⟨1, 1⟩, ⟨0, 1⟩, ⟨0, 1/2⟩] -
      polygon_area unitSquare = 0 from by decide]
    norm_num
  · refine ⟨[⟨1/10, 0⟩, ⟨1, 0⟩, ⟨1, 1⟩, ⟨1, 1⟩],
      [⟨0, 0⟩, ⟨1/10, 0⟩, ⟨1, 1⟩, ⟨1, 1⟩, ⟨0, 1⟩], by decide, ?_⟩
    rw [show polygon_area [⟨1/10, 0⟩, ⟨1, 0⟩, ⟨1, 1⟩, ⟨1, 1⟩] +
      polygon_area [⟨0, 0⟩, ⟨1/10, 0⟩, ⟨1, 1⟩, ⟨1, 1⟩, ⟨0, 1⟩] -
      polygon_area unitSquare = 0 from by decide]
    norm_num
  · refine ⟨[⟨123456789/1000000000, 0⟩, ⟨1, 0⟩, ⟨1, 1⟩,
        ⟨123456789/1000000000, 1⟩],
      [⟨0, 0⟩, ⟨123456789/1000000000, 0⟩, ⟨123456789/1000000000, 1⟩,
        ⟨0, 1⟩], by decide, ?_⟩
    rw [show polygon_area [⟨123456789/1000000000, 0⟩, ⟨1, 0⟩, ⟨1, 1⟩,
        ⟨123456789/1000000000, 1⟩] +
      polygon_area [⟨0, 0⟩, ⟨123456789/1000000000, 0⟩,
        ⟨123456789/1000000000, 1⟩, ⟨0, 1⟩] -
      polygon_area unitSquare = 0 from by decide]
    norm_num

/-- Witness for the amended C1, at the diagonal cut. -/
theorem C1_amended_fragment_area_sum_witness :
    ∃ fa fb, split_polygon unitSquare cutDiag = some [fa, fb] ∧
      |polygon_area fa + polygon_area fb - polygon_area unitSquare| ≤
        1 / 1000000 :=
  C1_amended_fragment_area_sum cutDiag (by simp)

end ConcreteEvaluation

end PolySlice
